import Mathlib

/-!
Shallow embedding of `src/helper/zoom_attendance_report.py`
(jdevries3133/teacher-helper): the `Meeting` record, the `MeetingSet`
incremental clustering algorithm, label resolution (`fill_group_dict`,
the `group_dict` tagging inside `process`), the CSV parsing front end
(`Meeting.open_report`, `MeetingSet.iter_csvs`), and the
`ExcelWriter` threshold validation.
-/

namespace ZoomAttendance

/-- A roster student, as referenced by `Meeting.attendees`
(only the `name` attribute is read by the clustering code). -/
structure Student where
  name : String
deriving DecidableEq, Repr

/-- The result of Python `datetime(year, month, day, hour, minute)`. -/
structure Datetime where
  year : Nat
  month : Nat
  day : Nat
  hour : Nat
  minute : Nat
deriving DecidableEq, Repr

/-- One parsed zoom meeting report (`Meeting` in the source):
`path` is the file name, `attendees` the matched students in row order. -/
structure Meeting where
  path : String
  topic : String := ""
  duration : Int := 0
  dt : Datetime := ⟨2020, 1, 1, 0, 0⟩
  attendees : List Student
deriving DecidableEq, Repr

/-- `{s.name for s in meeting.attendees}` — the set of attendee names
used by `match_meeting_with_group_by_union`. -/
def namesOf (m : Meeting) : Finset String :=
  (m.attendees.map Student.name).toFinset

/-- `union = len(pm__attendees | cm__attendees)` in
`match_meeting_with_group_by_union`. -/
def unionSize (past cur : Meeting) : Nat :=
  (namesOf past ∪ namesOf cur).card

/-- `total = len(pm__attendees) + len(cm__attendees)` in
`match_meeting_with_group_by_union`. -/
def totalSize (past cur : Meeting) : Nat :=
  (namesOf past).card + (namesOf cur).card

/-- `self.TOTAL_TO_UNION_RATIO_ADJUSTMENT = 0.75`, set in
`MeetingSet.__init__` (0.75 is exactly representable, so rationals
model the float comparison exactly). -/
def totalToUnionRatioAdjustment : ℚ := 3 / 4

/-- The threshold test `total * ratio > union` of
`match_meeting_with_group_by_union`, with the ratio as a parameter
(the source fixes it to `TOTAL_TO_UNION_RATIO_ADJUSTMENT`). -/
def matchTestWith (ratio : ℚ) (past cur : Meeting) : Prop :=
  (totalSize past cur : ℚ) * ratio > (unionSize past cur : ℚ)

instance (ratio : ℚ) (past cur : Meeting) :
    Decidable (matchTestWith ratio past cur) := by
  unfold matchTestWith
  infer_instance

/-- Kernel-computable form of the source's test at the default ratio:
`total * 0.75 > union` over exact arithmetic is
`3 * total > 4 * union`; the equivalence with `matchTestWith` at
`totalToUnionRatioAdjustment` is `matchTestB_iff` below. -/
def matchTestB (past cur : Meeting) : Bool :=
  decide (3 * totalSize past cur > 4 * unionSize past cur)

/-- One comparison step of Python `max`: keep the current candidate
unless the next item compares strictly greater under `Meeting.__gt__`,
which compares `len(self.attendees)`. -/
def pickMax (acc m : Meeting) : Meeting :=
  if m.attendees.length > acc.attendees.length then m else acc

/-- `max(group)` in `match_meeting_with_group_by_union`; `max` of an
empty list raises, modelled by `none`. -/
def maxMeeting : List Meeting → Option Meeting
  | [] => none
  | h :: t => some (t.foldl pickMax h)

/-- One iteration of the `for group in self.groups` loop of
`match_meeting_with_group_by_union`: compare the incoming meeting
against the group's representative `past_meeting = max(group)`. -/
def groupMatches (g : List Meeting) (cur : Meeting) : Bool :=
  match maxMeeting g with
  | none => false
  | some past => matchTestB past cur

/-- The body of `MeetingSet.process` for one meeting:
`match_meeting_with_group_by_union` scans `self.groups` in order and
returns the first group passing the test; `process` appends the
meeting to that group (`match.append(meeting)`), or appends a new
singleton group (`self.groups.append([meeting])`) when no group
matched. -/
def assignAux (m : Meeting) : List (List Meeting) → List (List Meeting)
  | [] => [[m]]
  | g :: gs =>
      if groupMatches g m then (g ++ [m]) :: gs
      else g :: assignAux m gs

/-- The `for meeting in self.iter_csvs()` loop of `MeetingSet.process`
starting from `self.groups = []`, over an already-parsed meeting list. -/
def processMeetings (ms : List Meeting) : List (List Meeting) :=
  ms.foldl (fun gs m => assignAux m gs) []

/-- The claim's acceptance condition, spelled out: the group's
representative `P` (`max(group)`) satisfies
`total * ratio_threshold > union` with the default 0.75 ratio. -/
def clusterAccepts (g : List Meeting) (cur : Meeting) : Prop :=
  ∃ past, maxMeeting g = some past ∧
    (totalSize past cur : ℚ) * totalToUnionRatioAdjustment
      > (unionSize past cur : ℚ)

/-- Two meetings ended up in the same grouping of `self.groups`. -/
def sameGroup (gs : List (List Meeting)) (m m' : Meeting) : Prop :=
  ∃ g, g ∈ gs ∧ m ∈ g ∧ m' ∈ g

instance (gs : List (List Meeting)) (m m' : Meeting) :
    Decidable (sameGroup gs m m') := by
  unfold sameGroup
  infer_instance

/-- `MeetingSet.group_map`: file name → user-supplied label
(`None`/`{}` both modelled by the empty list). -/
def GroupMap := List (String × String)

/-- `MeetingSet.group_dict`: label → list of meetings. -/
def GDict := String → Option (List Meeting)

/-- The body of the `for meeting in self.iter_csvs()` loop of
`MeetingSet.process`, including the `group_dict` tagging: when the
meeting matched a group and `self.group_map` is truthy and the
meeting's file name is in the map, `process` stores the fresh
one-element list `[meeting]` under the mapped label. -/
def processStep (map : GroupMap) (st : List (List Meeting) × GDict)
    (m : Meeting) : List (List Meeting) × GDict :=
  if st.1.any (fun g => groupMatches g m) then
    (assignAux m st.1,
     if map.isEmpty then st.2
     else
       match map.lookup m.path with
       | some lab => fun l => if l = lab then some [m] else st.2 l
       | none => st.2)
  else
    (st.1 ++ [[m]], st.2)

/-- `MeetingSet.process` with a `group_map`: the groups together with
the `group_dict` produced by the tagging branch (the commented-out
`fill_group_dict` call is never made). -/
def processWithMap (map : GroupMap) (ms : List Meeting) :
    List (List Meeting) × GDict :=
  ms.foldl (processStep map) ([], fun _ => none)

/-- `label = self.group_map.get(meeting.path.name)` followed by the
truthiness check `if label:` in `fill_group_dict`: an absent key and
an empty-string label are both falsy, so both are skipped. -/
def truthyLabel (map : GroupMap) (m : Meeting) : Option String :=
  match map.lookup m.path with
  | some lab => if lab = "" then none else some lab
  | none => none

/-- The inner loop of `MeetingSet.fill_group_dict` over one grouping:
stop at the first meeting whose label is truthy, skipping meetings
with no map entry or an empty-string label. -/
def firstTag (map : GroupMap) (g : List Meeting) : Option String :=
  g.findSome? (truthyLabel map)

/-- `MeetingSet.fill_group_dict`: for each grouping, the first
labelled meeting (if any) stores the whole grouping in the dict. -/
def fillGroupDict (map : GroupMap) :
    List (List Meeting) → GDict → GDict
  | [], d => d
  | g :: gs, d =>
      fillGroupDict map gs
        (match firstTag map g with
         | some lab => fun l => if l = lab then some g else d l
         | none => d)

instance {ε α : Type} [DecidableEq ε] [DecidableEq α] :
    DecidableEq (Except ε α)
  | .ok a, .ok b =>
      if h : a = b then .isTrue (by rw [h])
      else .isFalse (by intro hh; cases hh; exact h rfl)
  | .ok _, .error _ => .isFalse (by intro hh; cases hh)
  | .error _, .ok _ => .isFalse (by intro hh; cases hh)
  | .error e, .error e' =>
      if h : e = e' then .isTrue (by rw [h])
      else .isFalse (by intro hh; cases hh; exact h rfl)

/-- The exceptions that abort `Meeting.open_report` (and hence
`Meeting.__init__`): each models one `raise` site or stdlib error. -/
inductive ParseErr where
  /-- `NotImplementedError`: first character of the file name is not a
  digit (or the name is empty, an `IndexError` in the source). -/
  | badName : ParseErr
  /-- `Exception`: `rows[2]` is non-empty, so the report carries no
  meeting-information block. -/
  | badMeetingInfo : ParseErr
  /-- `IndexError` from `rows[...]` or `rows[1][...]`. -/
  | missingRow : ParseErr
  /-- `ValueError` from `int(rows[1][5])`. -/
  | badDuration : ParseErr
  /-- `ValueError` from unpacking fewer than five numeric fields of
  the start-time string. -/
  | badTimeStr : ParseErr
  /-- `ValueError` from the `datetime(...)` constructor. -/
  | badDatetime : ParseErr
deriving DecidableEq, Repr

/-- Split a character list at every separator, keeping empty tokens,
as `re.split` does. -/
def splitCharsAux (p : Char → Bool) : List Char → List Char →
    List (List Char)
  | [], acc => [acc.reverse]
  | c :: cs, acc =>
      if p c then acc.reverse :: splitCharsAux p cs []
      else splitCharsAux p cs (c :: acc)

/-- The tokens of `re.split(r'/| |:', time_str)`. -/
def timeTokens (s : String) : List String :=
  (splitCharsAux (fun c => c = '/' || c = ' ' || c = ':') s.data []).map
    (fun l => ⟨l⟩)

/-- Python `str.isdigit`: non-empty and all digits. -/
def isDigits (t : String) : Bool :=
  !t.data.isEmpty && t.data.all Char.isDigit

/-- Decimal value of a digit string, as `int` computes it. -/
def digitsToNat (l : List Char) : Nat :=
  l.foldl (fun n c => n * 10 + (c.toNat - '0'.toNat)) 0

/-- `[int(i) for i in re.split(r'/| |:', time_str) if i.isdigit()]`. -/
def digitVals (s : String) : List Nat :=
  ((timeTokens s).filter isDigits).map (fun t => digitsToNat t.data)

/-- Substring containment over character lists (Python `in`). -/
def containsSub (pat : List Char) : List Char → Bool
  | [] => pat.isEmpty
  | c :: t => pat.isPrefixOf (c :: t) || containsSub pat t

/-- `'pm' in time_str.lower()`. -/
def hasPmMarker (s : String) : Bool :=
  containsSub "pm".data (s.data.map Char.toLower)

/-- Gregorian leap year, as used by `datetime`. -/
def isLeap (y : Nat) : Bool :=
  (y % 4 = 0 && y % 100 ≠ 0) || y % 400 = 0

/-- Days in a month, as validated by the `datetime` constructor. -/
def daysInMonth (y m : Nat) : Nat :=
  if m = 2 then (if isLeap y then 29 else 28)
  else if m = 4 ∨ m = 6 ∨ m = 9 ∨ m = 11 then 30
  else 31

/-- The `datetime(year, month, day, hour, minute)` constructor: raises
`ValueError` when any field is out of range (in particular
`hour > 23`). -/
def mkDatetime (year month day hour minute : Nat) :
    Except ParseErr Datetime :=
  if 1 ≤ year ∧ year ≤ 9999
      ∧ 1 ≤ month ∧ month ≤ 12
      ∧ 1 ≤ day ∧ day ≤ daysInMonth year month
      ∧ hour ≤ 23 ∧ minute ≤ 59 then
    .ok ⟨year, month, day, hour, minute⟩
  else .error .badDatetime

/-- Lines 117–128 of `open_report`: split the start-time string into
numeric fields, unpack `month, day, year, hour, minute, *rest`, add
12 to the hour whenever `'pm'` occurs in the lowered string, and build
the `datetime`. -/
def parseTimeStr (s : String) : Except ParseErr Datetime :=
  match digitVals s with
  | month :: day :: year :: hour :: minute :: _rest =>
      mkDatetime year month day
        (if hasPmMarker s then hour + 12 else hour) minute
  | _ => .error .badTimeStr

/-- Python `int(...)` on a string: an optional sign followed by
digits, `ValueError` (modelled by `none`) otherwise. -/
def strToInt? (s : String) : Option Int :=
  match s.data with
  | [] => none
  | '-' :: rest =>
      if !rest.isEmpty && rest.all Char.isDigit then
        some (-(digitsToNat rest : Int))
      else none
  | l =>
      if l.all Char.isDigit then some (digitsToNat l : Int) else none

/-- A raw export file: its name and the rows `csv.reader` yields. -/
structure RawFile where
  name : String
  rows : List (List String)
deriving DecidableEq, Repr

/-- `Meeting.open_report` (called from `Meeting.__init__`), with the
roster lookup `match_student` abstracted as `resolver` (the helper is
an external collaborator): grade-level check on the file name's first
character, the `rows[2]` meeting-information check, duration from
`int(rows[1][5])`, topic from `rows[1][1]`, start time from
`rows[1][2]`, attendees from column 0 of `rows[4:]` with unresolved
names silently dropped. -/
def parseMeeting (resolver : String → Option Student) (f : RawFile) :
    Except ParseErr Meeting :=
  match f.name.data with
  | [] => .error .badName
  | c :: _ =>
    if c.isDigit then
      match f.rows.get? 2 with
      | none => .error .missingRow
      | some r2 =>
        if r2.isEmpty then
          match f.rows.get? 1 with
          | none => .error .missingRow
          | some row1 =>
            match row1.get? 5 with
            | none => .error .missingRow
            | some durStr =>
              match strToInt? durStr with
              | none => .error .badDuration
              | some dur =>
                match row1.get? 1 with
                | none => .error .missingRow
                | some topic =>
                  match row1.get? 2 with
                  | none => .error .missingRow
                  | some timeStr =>
                    match parseTimeStr timeStr with
                    | .error e => .error e
                    | .ok dt =>
                      .ok { path := f.name, topic := topic,
                            duration := dur, dt := dt,
                            attendees :=
                              (f.rows.drop 4).filterMap
                                (fun row => row.get? 0 >>= resolver) }
        else .error .badMeetingInfo
    else .error .badName

/-- The filter of `MeetingSet.iter_csvs`: skip names not ending in
`.csv` and names starting with `~` or `.`. -/
def isCandidate (f : RawFile) : Bool :=
  if (f.name.data.reverse.take 4).reverse ≠ ".csv".data then false
  else
    match f.name.data with
    | [] => false
    | c :: _ => if c = '~' || c = '.' then false else true

/-- `MeetingSet.process` over a directory of raw files:
`iter_csvs` constructs a `Meeting` per kept file (where any parse
exception propagates and aborts the run) and the loop assigns it to a
group. -/
def runMeetingSet (resolver : String → Option Student)
    (files : List RawFile) : Except ParseErr (List (List Meeting)) :=
  (files.filter isCandidate).foldlM
    (fun gs f => (parseMeeting resolver f).map (fun m => assignAux m gs)) []

/-- `attendance_duration_thresholds` with the three required colors. -/
structure Thresholds where
  red : Int
  yellow : Int
  green : Int
deriving DecidableEq, Repr

/-- `AssertionError` escaping `ExcelWriter.validate_or_generate_thresholds`. -/
inductive ConfigErr where
  | invalidThresholds : ConfigErr
deriving DecidableEq, Repr

/-- `ExcelWriter.validate_or_generate_thresholds`: asserts
`red < yellow < green` when thresholds were supplied, otherwise
installs the defaults `red=0, yellow=15, green=30`. -/
def validateOrGenerateThresholds (t? : Option Thresholds) :
    Except ConfigErr Thresholds :=
  match t? with
  | none => .ok ⟨0, 15, 30⟩
  | some t =>
      if t.red < t.yellow ∧ t.yellow < t.green then .ok t
      else .error .invalidThresholds

/-! Concrete inputs used by counterexamples and witnesses. -/

/-- Shorthand for a student with a given name. -/
def exStudent (n : String) : Student := ⟨n⟩

/-- Shorthand for a meeting with a given file name and attendee names. -/
def exMeeting (p : String) (ns : List String) : Meeting :=
  { path := p, attendees := ns.map exStudent }

def cexM1 : Meeting := exMeeting "f1.csv" ["a", "b", "c", "d"]

def cexB1 : Meeting := exMeeting "f2.csv" ["a", "b", "c", "d", "e", "f"]

def cexB2 : Meeting :=
  exMeeting "f3.csv" ["c", "d", "e", "f", "g", "h", "i", "j"]

def cexM2 : Meeting := exMeeting "f4.csv" ["a", "b", "c", "d"]

def repM1 : Meeting := exMeeting "r1.csv" ["a", "b"]

def repM2 : Meeting := exMeeting "r2.csv" ["c", "d"]

def repM3 : Meeting := exMeeting "r3.csv" ["e"]

def wNonEmpty : Meeting := exMeeting "w1.csv" ["a", "b", "c"]

def wEmpty : Meeting := exMeeting "w2.csv" []

def wEmptyB : Meeting := exMeeting "w3.csv" []

def c3pre : Meeting := exMeeting "p1.csv" ["p", "q", "r"]

def c3fst : Meeting := exMeeting "p2.csv" ["a", "b"]

def c3snd : Meeting := exMeeting "p3.csv" ["b", "a"]

def c3suf : Meeting := exMeeting "p4.csv" ["x", "y", "z"]

def c6untagged : Meeting := exMeeting "untagged.csv" ["u"]

def c6tagged : Meeting := exMeeting "fileA.csv" ["v"]

def c6map : GroupMap := [("fileA.csv", "HealthSmithHR")]

def c8base : Meeting := exMeeting "base.csv" ["a", "b", "c"]

def c8tag : Meeting := exMeeting "tag.csv" ["a", "b", "c"]

def c8map : GroupMap := [("tag.csv", "L1")]

def c8solo : Meeting := exMeeting "solo.csv" ["z"]

def c8mapSolo : GroupMap := [("solo.csv", "L2")]

/-- The roster lookup used by concrete parsing examples. -/
def rosterEx : String → Option Student :=
  fun s =>
    if s = "alice" then some ⟨"alice"⟩
    else if s = "bob" then some ⟨"bob"⟩
    else none

def c7good : RawFile :=
  { name := "6mtg.csv",
    rows := [[], ["x", "Math", "9/1/2020 10:00:00 AM", "x", "x", "60"],
             [], [], ["alice", "x", "30"], ["bob", "x", "25"]] }

/-- The meeting `c7good` parses to. -/
def c7goodMeeting : Meeting :=
  { path := "6mtg.csv", topic := "Math", duration := 60,
    dt := ⟨2020, 9, 1, 10, 0⟩, attendees := [⟨"alice"⟩, ⟨"bob"⟩] }

/-- A file whose duration column is not numeric: `int(rows[1][5])`
raises `ValueError`. -/
def c7bad : RawFile :=
  { name := "6bad.csv",
    rows := [[], ["x", "Math", "9/2/2020 10:00:00 AM", "x", "x", "sixty"],
             [], []] }

def c7good2 : RawFile :=
  { name := "7mtg.csv",
    rows := [[], ["x", "Art", "9/3/2020 11:00:00 AM", "x", "x", "45"],
             [], [], ["bob", "x", "40"]] }

/-- A file whose meeting started at 12:30 PM. -/
def c10file : RawFile :=
  { name := "6noon.csv",
    rows := [[], ["x", "Math", "9/1/2020 12:30:00 PM", "x", "x", "60"],
             [], [], ["alice", "x", "30"]] }

def c10dummy : Meeting := exMeeting "d.csv" []

/-! Helper lemmas. -/

/-- The kernel-computable test agrees with the source's
`total * 0.75 > union` formula at the default ratio. -/
theorem matchTestB_iff (past cur : Meeting) :
    matchTestB past cur = true ↔
      matchTestWith totalToUnionRatioAdjustment past cur := by
  unfold matchTestB matchTestWith totalToUnionRatioAdjustment
  rw [decide_eq_true_eq]
  constructor
  · intro h
    have h' : ((4 * unionSize past cur : ℕ) : ℚ)
        < ((3 * totalSize past cur : ℕ) : ℚ) := Nat.cast_lt.mpr h
    push_cast at h'
    rw [gt_iff_lt]
    linarith
  · intro h
    rw [gt_iff_lt] at h
    have h' : ((4 * unionSize past cur : ℕ) : ℚ)
        < ((3 * totalSize past cur : ℕ) : ℚ) := by push_cast; linarith
    exact_mod_cast h'

/-- A group passes the boolean scan test iff its representative
satisfies the claim-level acceptance formula. -/
theorem groupMatches_iff (g : List Meeting) (cur : Meeting) :
    groupMatches g cur = true ↔ clusterAccepts g cur := by
  unfold groupMatches clusterAccepts
  rcases h : maxMeeting g with _ | past
  · simp
  · simp only [h, Option.some.injEq]
    rw [matchTestB_iff]
    unfold matchTestWith
    constructor
    · intro ht
      exact ⟨past, rfl, ht⟩
    · rintro ⟨p, rfl, ht⟩
      exact ht

/-- Claim C1: for every incoming record `R`, the clusterer scans the
existing clusters in creation order and assigns `R` to the first
cluster whose representative `P` satisfies
`total * ratio_threshold > union` (`ratio_threshold = 0.75`); if no
cluster satisfies the test, a new singleton cluster containing only
`R` is appended to the cluster list. -/
theorem assign_scans_clusters_in_order
    (gs : List (List Meeting)) (R : Meeting) :
    (∃ i g, gs.get? i = some g ∧ clusterAccepts g R ∧
      (∀ j g', j < i → gs.get? j = some g' → ¬ clusterAccepts g' R) ∧
      assignAux R gs = gs.set i (g ++ [R]))
    ∨ ((∀ g ∈ gs, ¬ clusterAccepts g R) ∧
        assignAux R gs = gs ++ [[R]]) := by
  induction gs with
  | nil =>
      right
      refine ⟨?_, rfl⟩
      intro g hg
      cases hg
  | cons g gs ih =>
      by_cases hm : groupMatches g R = true
      · left
        refine ⟨0, g, rfl, (groupMatches_iff g R).mp hm, ?_, ?_⟩
        · intro j g' hj _
          omega
        · show assignAux R (g :: gs) = (g ++ [R]) :: gs
          simp only [assignAux]
          rw [if_pos hm]
      · have hm' : ¬ clusterAccepts g R :=
          fun hc => hm ((groupMatches_iff g R).mpr hc)
        have hstep : assignAux R (g :: gs) = g :: assignAux R gs := by
          simp only [assignAux]
          rw [if_neg hm]
        rcases ih with ⟨i, gi, hget, hacc, hfirst, heq⟩ | ⟨hall, heq⟩
        · left
          refine ⟨i + 1, gi, by simpa using hget, hacc, ?_, ?_⟩
          · intro j g' hj hg'
            match j with
            | 0 =>
                simp only [List.get?_cons_zero, Option.some.injEq] at hg'
                rw [← hg']
                exact hm'
            | Nat.succ k =>
                exact hfirst k g' (by omega)
                  (by simpa using hg')
          · rw [hstep, heq]
            rfl
        · right
          constructor
          · intro g' hg'
            rcases List.mem_cons.mp hg' with rfl | hmem
            · exact hm'
            · exact hall g' hmem
          · rw [hstep, heq]
            rfl

/-- Spec of the fold inside `maxMeeting`: the result is the earliest
element of `acc :: t` achieving the maximum attendee count. -/
theorem foldl_pickMax_spec (t : List Meeting) : ∀ acc : Meeting,
    ∃ pre suf,
      acc :: t = pre ++ (t.foldl pickMax acc) :: suf ∧
      (∀ m ∈ pre,
        m.attendees.length < (t.foldl pickMax acc).attendees.length) ∧
      (∀ m ∈ acc :: t,
        m.attendees.length ≤ (t.foldl pickMax acc).attendees.length) := by
  induction t with
  | nil =>
      intro acc
      refine ⟨[], [], rfl, ?_, ?_⟩
      · intro m hm; cases hm
      · intro m hm
        rcases List.mem_cons.mp hm with rfl | hm
        · exact le_refl _
        · cases hm
  | cons x t ih =>
      intro acc
      by_cases hx : x.attendees.length > acc.attendees.length
      · have hred : (x :: t).foldl pickMax acc = t.foldl pickMax x := by
          simp only [List.foldl_cons, pickMax, if_pos hx]
        rcases ih x with ⟨pre, suf, hdec, hstrict, hle⟩
        rw [hred]
        refine ⟨acc :: pre, suf, ?_, ?_, ?_⟩
        · rw [List.cons_append, ← hdec]
        · intro m hm
          rcases List.mem_cons.mp hm with rfl | hm
          · exact lt_of_lt_of_le hx (hle x (List.mem_cons_self x t))
          · exact hstrict m hm
        · intro m hm
          rcases List.mem_cons.mp hm with rfl | hm
          · exact le_of_lt
              (lt_of_lt_of_le hx (hle x (List.mem_cons_self x t)))
          · exact hle m hm
      · have hred : (x :: t).foldl pickMax acc = t.foldl pickMax acc := by
          simp only [List.foldl_cons, pickMax, if_neg hx]
        rcases ih acc with ⟨pre, suf, hdec, hstrict, hle⟩
        rw [hred]
        match pre, hdec with
        | [], hdec =>
            have hr : t.foldl pickMax acc = acc := by
              have := congrArg (fun l => l.head?) hdec
              simpa using this.symm
            refine ⟨[], x :: t, ?_, ?_, ?_⟩
            · rw [hr]
              rfl
            · intro m hm; cases hm
            · intro m hm
              rw [hr]
              rcases List.mem_cons.mp hm with rfl | hm
              · exact le_refl _
              · rcases List.mem_cons.mp hm with rfl | hm
                · omega
                · have := hle m (List.mem_cons_of_mem acc hm)
                  rw [hr] at this
                  exact this
        | p0 :: pre', hdec =>
            have hp0 : p0 = acc := by
              have := congrArg (fun l => l.head?) hdec
              simpa using this.symm
            have ht : t = pre' ++ (t.foldl pickMax acc) :: suf := by
              have := congrArg (fun l => l.tail) hdec
              simpa using this
            have hacc : acc.attendees.length
                < (t.foldl pickMax acc).attendees.length := by
              have := hstrict p0 (List.mem_cons_self p0 pre')
              rw [hp0] at this
              exact this
            refine ⟨acc :: x :: pre', suf, ?_, ?_, ?_⟩
            · rw [List.cons_append, List.cons_append, ← ht]
            · intro m hm
              rcases List.mem_cons.mp hm with rfl | hm
              · exact hacc
              · rcases List.mem_cons.mp hm with rfl | hm
                · omega
                · exact hstrict m (List.mem_cons_of_mem p0 hm)
            · intro m hm
              rcases List.mem_cons.mp hm with rfl | hm
              · exact hle m (List.mem_cons_self m t)
              · rcases List.mem_cons.mp hm with rfl | hm
                · have := hle acc (List.mem_cons_self acc t)
                  omega
                · exact hle m (List.mem_cons_of_mem acc hm)

/-- Claim C2: for every cluster, the representative used in the
similarity comparison (`max(group)`) is the member record with the
maximum number of attendees seen so far, with ties between equal-sized
records broken in favour of the record that arrived earliest. -/
theorem representative_is_first_max (g : List Meeting) (r : Meeting)
    (h : maxMeeting g = some r) :
    r ∈ g ∧ (∀ m ∈ g, m.attendees.length ≤ r.attendees.length) ∧
      ∃ pre suf, g = pre ++ r :: suf ∧
        ∀ m ∈ pre, m.attendees.length < r.attendees.length := by
  match g, h with
  | h0 :: t, h =>
      have hr : t.foldl pickMax h0 = r := by
        simpa [maxMeeting] using h
      rcases foldl_pickMax_spec t h0 with ⟨pre, suf, hdec, hstrict, hle⟩
      rw [hr] at hdec hstrict hle
      refine ⟨?_, hle, pre, suf, hdec, hstrict⟩
      rw [hdec]
      exact List.mem_append_right pre (List.mem_cons_self r suf)

/-- Witness for C2 at a cluster with a size tie: the earlier of the
two two-attendee records is the representative. -/
theorem representative_is_first_max_wit :
    repM1 ∈ [repM1, repM2, repM3] ∧
      (∀ m ∈ [repM1, repM2, repM3],
        m.attendees.length ≤ repM1.attendees.length) ∧
      ∃ pre suf, [repM1, repM2, repM3] = pre ++ repM1 :: suf ∧
        ∀ m ∈ pre, m.attendees.length < repM1.attendees.length :=
  representative_is_first_max [repM1, repM2, repM3] repM1 rfl

/-- The scan test reads the incoming record only through its attendee
name set. -/
theorem matchTestB_cur_congr (p : Meeting) {c c' : Meeting}
    (h : namesOf c = namesOf c') : matchTestB p c = matchTestB p c' := by
  unfold matchTestB totalSize unionSize
  rw [h]

/-- `groupMatches` reads the incoming record only through its attendee
name set. -/
theorem groupMatches_cur_congr (g : List Meeting) {c c' : Meeting}
    (h : namesOf c = namesOf c') : groupMatches g c = groupMatches g c' := by
  unfold groupMatches
  rcases hm : maxMeeting g with _ | p
  · rfl
  · exact matchTestB_cur_congr p h

/-- When no group passes the test, the scan falls through and a new
singleton group is appended. -/
theorem assignAux_no_match (m : Meeting) (gs : List (List Meeting))
    (h : ∀ g ∈ gs, groupMatches g m = false) :
    assignAux m gs = gs ++ [[m]] := by
  induction gs with
  | nil => rfl
  | cons g gs ih =>
      have hg : groupMatches g m = false := h g (List.mem_cons_self g gs)
      simp only [assignAux, hg, Bool.false_eq_true, if_false,
        List.cons_append, List.cons.injEq, true_and]
      exact ih (fun g' hg' => h g' (List.mem_cons_of_mem g hg'))

/-- A record passes the test against a representative with the same
non-empty attendee name set: `union = n`, `total = 2n`, and
`3 * 2n > 4 * n` whenever `n > 0`. -/
theorem matchTestB_same_names {R R' : Meeting}
    (h : namesOf R = namesOf R') (hne : namesOf R ≠ ∅) :
    matchTestB R R' = true := by
  unfold matchTestB totalSize unionSize
  rw [decide_eq_true_eq, ← h, Finset.union_self]
  have hpos : 0 < (namesOf R).card :=
    Finset.card_pos.mpr (Finset.nonempty_iff_ne_empty.mpr hne)
  omega

/-- Appending a record to a group either keeps the representative or
replaces it with the new record. -/
theorem maxMeeting_append_one (g : List Meeting) (R : Meeting) :
    maxMeeting (g ++ [R]) =
      match maxMeeting g with
      | none => some R
      | some p => some (pickMax p R) := by
  cases g with
  | nil => rfl
  | cons h0 t =>
      simp only [maxMeeting, List.cons_append, List.foldl_append,
        List.foldl_cons, List.foldl_nil]

/-- If a group accepted `R`, then after `R` is appended the group also
accepts any record with the same non-empty attendee set. -/
theorem groupMatches_after_insert {g : List Meeting} {R R' : Meeting}
    (hg : groupMatches g R = true) (h : namesOf R = namesOf R')
    (hne : namesOf R ≠ ∅) : groupMatches (g ++ [R]) R' = true := by
  unfold groupMatches at hg ⊢
  rcases hm : maxMeeting g with _ | p
  · rw [hm] at hg
    cases hg
  · rw [hm] at hg
    have hg' : matchTestB p R = true := hg
    have hmax : maxMeeting (g ++ [R]) = some (pickMax p R) := by
      rw [maxMeeting_append_one, hm]
    rw [hmax]
    show matchTestB (pickMax p R) R' = true
    unfold pickMax
    by_cases hlen : R.attendees.length > p.attendees.length
    · rw [if_pos hlen]
      exact matchTestB_same_names h hne
    · rw [if_neg hlen]
      rw [← matchTestB_cur_congr p h]
      exact hg'

/-- Assigning two records with the same non-empty attendee set one
right after the other puts the second into the group holding the
first. -/
theorem consecutive_same_names (R R' : Meeting)
    (h : namesOf R = namesOf R') (hne : namesOf R ≠ ∅) :
    ∀ gs : List (List Meeting),
      sameGroup (assignAux R' (assignAux R gs)) R R' := by
  intro gs
  induction gs with
  | nil =>
      have hsingle : groupMatches [R] R' = true := by
        unfold groupMatches maxMeeting
        exact matchTestB_same_names h hne
      show sameGroup (assignAux R' [[R]]) R R'
      simp only [assignAux, hsingle, if_true]
      exact ⟨[R] ++ [R'], List.mem_cons_self _ _,
        List.mem_append_left _ (List.mem_cons_self R []),
        List.mem_append_right _ (List.mem_cons_self R' [])⟩
  | cons g gs ih =>
      by_cases hm : groupMatches g R = true
      · have h1 : assignAux R (g :: gs) = (g ++ [R]) :: gs := by
          simp only [assignAux, hm, if_true]
        have h2 : groupMatches (g ++ [R]) R' = true :=
          groupMatches_after_insert hm h hne
        rw [h1]
        show sameGroup (assignAux R' ((g ++ [R]) :: gs)) R R'
        simp only [assignAux, h2, if_true]
        exact ⟨(g ++ [R]) ++ [R'], List.mem_cons_self _ _,
          List.mem_append_left _
            (List.mem_append_right _ (List.mem_cons_self R [])),
          List.mem_append_right _ (List.mem_cons_self R' [])⟩
      · have h1 : assignAux R (g :: gs) = g :: assignAux R gs := by
          simp only [assignAux]
          rw [if_neg hm]
        have hm' : ¬ groupMatches g R' = true := by
          rw [← groupMatches_cur_congr g h]
          exact hm
        rw [h1]
        show sameGroup (assignAux R' (g :: assignAux R gs)) R R'
        have h2 : assignAux R' (g :: assignAux R gs) =
            g :: assignAux R' (assignAux R gs) := by
          simp only [assignAux]
          rw [if_neg hm']
        rw [h2]
        rcases ih with ⟨g0, hg0, hR, hR'⟩
        exact ⟨g0, List.mem_cons_of_mem g hg0, hR, hR'⟩

/-- Assigning another record never separates two records already in a
common group. -/
theorem sameGroup_assign (x m m' : Meeting) :
    ∀ gs : List (List Meeting),
      sameGroup gs m m' → sameGroup (assignAux x gs) m m' := by
  intro gs
  induction gs with
  | nil =>
      rintro ⟨g0, hg0, -, -⟩
      cases hg0
  | cons g gs ih =>
      rintro ⟨g0, hg0, hm, hm'⟩
      by_cases hx : groupMatches g x = true
      · have h1 : assignAux x (g :: gs) = (g ++ [x]) :: gs := by
          simp only [assignAux, hx, if_true]
        rw [h1]
        rcases List.mem_cons.mp hg0 with rfl | hmem
        · exact ⟨g0 ++ [x], List.mem_cons_self _ _,
            List.mem_append_left _ hm, List.mem_append_left _ hm'⟩
        · exact ⟨g0, List.mem_cons_of_mem _ hmem, hm, hm'⟩
      · have h1 : assignAux x (g :: gs) = g :: assignAux x gs := by
          simp only [assignAux]
          rw [if_neg hx]
        rw [h1]
        rcases List.mem_cons.mp hg0 with rfl | hmem
        · exact ⟨g0, List.mem_cons_self _ _, hm, hm'⟩
        · rcases ih ⟨g0, hmem, hm, hm'⟩ with ⟨g1, hg1, h1m, h1m'⟩
          exact ⟨g1, List.mem_cons_of_mem g hg1, h1m, h1m'⟩

/-- Folding further records preserves common-group membership. -/
theorem sameGroup_foldl (ms : List Meeting) (m m' : Meeting) :
    ∀ gs : List (List Meeting), sameGroup gs m m' →
      sameGroup (ms.foldl (fun a b => assignAux b a) gs) m m' := by
  induction ms with
  | nil => intro gs h; exact h
  | cons x ms ih =>
      intro gs h
      exact ih (assignAux x gs) (sameGroup_assign x m m' gs h)

/-- Counterexample to C3 as stated: with intervening records the
cluster representative drifts, so two records with identical non-empty
attendee sets (`cexM1`, `cexM2`) land in different clusters even
though both are processed in the same run. -/
theorem identical_sets_may_split_cex :
    namesOf cexM1 = namesOf cexM2 ∧ namesOf cexM1 ≠ ∅ ∧ cexM1 ≠ cexM2 ∧
      processMeetings [cexM1, cexB1, cexB2, cexM2] =
        [[cexM1, cexB1, cexB2], [cexM2]] ∧
      ¬ sameGroup (processMeetings [cexM1, cexB1, cexB2, cexM2])
        cexM1 cexM2 := by
  refine ⟨by decide, by decide, by decide, by decide, by decide⟩

/-- Claim C3 (amended): for every pair of records with identical,
non-empty attendee sets that are processed consecutively (no record
between them), both records end up in the same cluster at the end of
the run, whatever precedes or follows them. -/
theorem identical_adjacent_records_share_cluster
    (pre suf : List Meeting) (R R' : Meeting)
    (h : namesOf R = namesOf R') (hne : namesOf R ≠ ∅) :
    sameGroup (processMeetings (pre ++ R :: R' :: suf)) R R' := by
  unfold processMeetings
  rw [List.foldl_append]
  simp only [List.foldl_cons]
  exact sameGroup_foldl suf R R' _
    (consecutive_same_names R R' h hne (pre.foldl (fun a b => assignAux b a) []))

/-- Witness for the amended C3 on a concrete run with records before
and after the adjacent pair. -/
theorem identical_adjacent_records_share_cluster_wit :
    sameGroup (processMeetings [c3pre, c3fst, c3snd, c3suf]) c3fst c3snd :=
  identical_adjacent_records_share_cluster [c3pre] [c3suf] c3fst c3snd
    (by decide) (by decide)

/-- With `total = 0` the strict inequality `total * ratio > union`
fails for every ratio, since `0 * ratio = 0` and `union ≥ 0`. -/
theorem not_matchTest_of_total_eq_zero (ratio : ℚ) (past cur : Meeting)
    (h : totalSize past cur = 0) :
    ¬ matchTestWith ratio past cur := by
  unfold matchTestWith
  rw [h]
  push_cast
  intro hcontra
  have hu : (0 : ℚ) ≤ (unionSize past cur : ℚ) := Nat.cast_nonneg _
  rw [zero_mul, gt_iff_lt] at hcontra
  linarith

/-- An empty attendee list yields an empty name set. -/
theorem namesOf_empty {R : Meeting} (h : R.attendees = []) :
    namesOf R = ∅ := by
  unfold namesOf
  rw [h]
  rfl

/-- Claim C4: the match test treats `total = 0` as no match (so it
cannot divide by zero — the source never divides), and a record with
an empty attendee set, scanned against clusters none of whose
representatives is empty, always starts a new singleton cluster. -/
theorem empty_record_forces_new_singleton :
    (∀ past cur : Meeting, totalSize past cur = 0 →
      ¬ matchTestWith totalToUnionRatioAdjustment past cur) ∧
    ∀ (gs : List (List Meeting)) (R : Meeting), R.attendees = [] →
      (∀ g ∈ gs, ∀ p, maxMeeting g = some p → p.attendees ≠ []) →
      assignAux R gs = gs ++ [[R]] := by
  constructor
  · exact fun past cur h =>
      not_matchTest_of_total_eq_zero totalToUnionRatioAdjustment past cur h
  · intro gs R hR hreps
    apply assignAux_no_match
    intro g hg
    unfold groupMatches
    rcases hm : maxMeeting g with _ | p
    · rfl
    · show matchTestB p R = false
      have hnames : namesOf R = ∅ := namesOf_empty hR
      unfold matchTestB totalSize unionSize
      rw [hnames, Finset.union_empty, Finset.card_empty, Nat.add_zero,
        decide_eq_false_iff_not]
      omega

/-- Witness for C4: an empty record scanned against one non-empty
cluster starts its own singleton. -/
theorem empty_record_forces_new_singleton_wit :
    assignAux wEmpty [[wNonEmpty]] = [[wNonEmpty], [wEmpty]] :=
  empty_record_forces_new_singleton.2 [[wNonEmpty]] wEmpty rfl (by decide)

/-- Counterexample to C5 as stated: a record with an empty attendee
set does not match a cluster whose representative is also empty — the
test is `0 * 0.75 > 0`, which is false, so no "trivial match" occurs. -/
theorem empty_vs_empty_rep_rejected_cex :
    wEmpty.attendees = [] ∧ wEmptyB.attendees = [] ∧
      maxMeeting [wEmpty] = some wEmpty ∧
      groupMatches [wEmpty] wEmptyB = false ∧
      ¬ matchTestWith totalToUnionRatioAdjustment wEmpty wEmptyB :=
  ⟨rfl, rfl, rfl, by decide,
    not_matchTest_of_total_eq_zero totalToUnionRatioAdjustment wEmpty wEmptyB
      (by decide)⟩

/-- Claim C5 (amended): a record with an empty attendee set never
satisfies the threshold test against any representative, for every
ratio at most 1: when the representative is also empty the test is
`0 > 0`, and otherwise `total * ratio ≤ total = union`. In particular
it never matches at the source's 0.75 ratio. -/
theorem empty_record_never_matches (ratio : ℚ) (hr : ratio ≤ 1)
    (past cur : Meeting) (hcur : cur.attendees = []) :
    ¬ matchTestWith ratio past cur := by
  unfold matchTestWith
  have hnames : namesOf cur = ∅ := namesOf_empty hcur
  unfold totalSize unionSize
  rw [hnames, Finset.union_empty, Finset.card_empty, Nat.add_zero]
  intro hcontra
  rw [gt_iff_lt] at hcontra
  have hc : (0 : ℚ) ≤ ((namesOf past).card : ℚ) := Nat.cast_nonneg _
  nlinarith

/-- Witness for the amended C5 at the source's ratio and a non-empty
representative. -/
theorem empty_record_never_matches_wit :
    ¬ matchTestWith totalToUnionRatioAdjustment wNonEmpty wEmpty :=
  empty_record_never_matches totalToUnionRatioAdjustment
    (by norm_num [totalToUnionRatioAdjustment]) wNonEmpty wEmpty rfl

/-- A truthy label is an actual map entry with a non-empty string. -/
theorem truthyLabel_eq_some (map : GroupMap) (m : Meeting) (lab : String)
    (h : truthyLabel map m = some lab) :
    map.lookup m.path = some lab ∧ lab ≠ "" := by
  unfold truthyLabel at h
  rcases hlk : map.lookup m.path with _ | lab0
  · rw [hlk] at h
    cases h
  · rw [hlk] at h
    have h' : (if lab0 = "" then none else some lab0) = some lab := h
    by_cases he : lab0 = ""
    · rw [if_pos he] at h'
      cases h'
    · rw [if_neg he] at h'
      obtain rfl : lab0 = lab := by injection h'
      exact ⟨rfl, he⟩

/-- Characterization of the inner scan of `fill_group_dict`: a
resolved label comes from the first meeting of the grouping carrying a
truthy label; every earlier meeting is either absent from the map or
mapped to the falsy empty string. -/
theorem firstTag_decomp (map : GroupMap) (g : List Meeting) (lab : String)
    (h : firstTag map g = some lab) :
    ∃ pre m suf, g = pre ++ m :: suf ∧ map.lookup m.path = some lab ∧
      lab ≠ "" ∧ ∀ m' ∈ pre, truthyLabel map m' = none := by
  induction g with
  | nil => cases h
  | cons m0 t ih =>
      unfold firstTag at h
      rw [List.findSome?_cons] at h
      rcases hl : truthyLabel map m0 with _ | l
      · rw [hl] at h
        have h' : firstTag map t = some lab := h
        rcases ih h' with ⟨pre, m, suf, hdec, hfound, hne, hnone⟩
        refine ⟨m0 :: pre, m, suf, by rw [hdec]; rfl, hfound, hne, ?_⟩
        intro m' hm'
        rcases List.mem_cons.mp hm' with rfl | hm'
        · exact hl
        · exact hnone m' hm'
      · rw [hl] at h
        have h' : some l = some lab := h
        have hll : l = lab := by injection h'
        rw [hll] at hl
        rcases truthyLabel_eq_some map m0 lab hl with ⟨hfound, hne⟩
        exact ⟨[], m0, t, rfl, hfound, hne, by intro m' hm'; cases hm'⟩

/-- Entries not overwritten later survive the rest of the fill loop. -/
theorem fillGroupDict_preserve (map : GroupMap) (lab : String)
    (g : List Meeting) :
    ∀ (gs : List (List Meeting)) (d : GDict),
      (∀ g' ∈ gs, firstTag map g' = some lab → g' = g) →
      d lab = some g → fillGroupDict map gs d lab = some g := by
  intro gs
  induction gs with
  | nil => intro d _ hd; exact hd
  | cons g0 t ih =>
      intro d huniq hd
      unfold fillGroupDict
      rcases hft : firstTag map g0 with _ | lab0
      · exact ih d (fun g' hg' => huniq g' (List.mem_cons_of_mem g0 hg')) hd
      · show fillGroupDict map t
          (fun l => if l = lab0 then some g0 else d l) lab = some g
        apply ih _ (fun g' hg' => huniq g' (List.mem_cons_of_mem g0 hg'))
        show (if lab = lab0 then some g0 else d lab) = some g
        by_cases hlab : lab = lab0
        · have hg0 : g0 = g := by
            apply huniq g0 (List.mem_cons_self g0 t)
            rw [hft, hlab]
          rw [if_pos hlab, hg0]
        · rw [if_neg hlab]
          exact hd

/-- Soundness of the fill loop relative to its starting dict: every
entry either was already present or names a grouping of the list whose
first tagged meeting carries that label. -/
theorem fillGroupDict_sound (map : GroupMap) (lab : String)
    (g : List Meeting) :
    ∀ (gs : List (List Meeting)) (d : GDict),
      fillGroupDict map gs d lab = some g →
      d lab = some g ∨ (g ∈ gs ∧ firstTag map g = some lab) := by
  intro gs
  induction gs with
  | nil => intro d h; exact Or.inl h
  | cons g0 t ih =>
      intro d h
      unfold fillGroupDict at h
      rcases hft : firstTag map g0 with _ | lab0
      · rw [hft] at h
        rcases ih _ h with hd | ⟨hmem, hfirst⟩
        · exact Or.inl hd
        · exact Or.inr ⟨List.mem_cons_of_mem g0 hmem, hfirst⟩
      · rw [hft] at h
        have h' : fillGroupDict map t
            (fun l => if l = lab0 then some g0 else d l) lab = some g := h
        rcases ih _ h' with hd | ⟨hmem, hfirst⟩
        · have hd' : (if lab = lab0 then some g0 else d lab) = some g := hd
          by_cases hlab : lab = lab0
          · rw [if_pos hlab] at hd'
            obtain rfl : g0 = g := by injection hd'
            refine Or.inr ⟨List.mem_cons_self g0 t, ?_⟩
            rw [hft, hlab]
          · rw [if_neg hlab] at hd'
            exact Or.inl hd'
        · exact Or.inr ⟨List.mem_cons_of_mem g0 hmem, hfirst⟩

/-- Completeness of the fill loop, generalized over the starting
dict: a grouping whose first tagged label is claimed by no other
grouping ends up stored under that label. -/
theorem fillGroupDict_mem (map : GroupMap) (lab : String)
    (g : List Meeting) :
    ∀ (gs : List (List Meeting)) (d : GDict),
      g ∈ gs → firstTag map g = some lab →
      (∀ g' ∈ gs, firstTag map g' = some lab → g' = g) →
      fillGroupDict map gs d lab = some g := by
  intro gs
  induction gs with
  | nil => intro d hmem _ _; cases hmem
  | cons g0 t ih =>
      intro d hmem hfirst huniq
      unfold fillGroupDict
      rcases hft : firstTag map g0 with _ | lab0
      · show fillGroupDict map t d lab = some g
        rcases List.mem_cons.mp hmem with rfl | hmem'
        · rw [hfirst] at hft
          cases hft
        · exact ih d hmem' hfirst
            (fun g' hg' => huniq g' (List.mem_cons_of_mem g0 hg'))
      · show fillGroupDict map t
          (fun l => if l = lab0 then some g0 else d l) lab = some g
        by_cases hlab : lab = lab0
        · have hg0 : g0 = g := by
            apply huniq g0 (List.mem_cons_self g0 t)
            rw [hft, hlab]
          apply fillGroupDict_preserve map lab g t
          · intro g' hg'
            exact huniq g' (List.mem_cons_of_mem g0 hg')
          · show (if lab = lab0 then some g0 else d lab) = some g
            rw [if_pos hlab, hg0]
        · rcases List.mem_cons.mp hmem with rfl | hmem'
          · rw [hfirst] at hft
            have hlabs : lab = lab0 := by injection hft
            exact absurd hlabs hlab
          · exact ih _ hmem' hfirst
              (fun g' hg' => huniq g' (List.mem_cons_of_mem g0 hg'))

/-- Claim C6: with a sparse label map, label resolution gives each
cluster the label of the first record in arrival order whose file
origin carries a truthy (non-empty) label in the map — the source's
`if label:` check skips records with no map entry or an empty-string
label and keeps scanning; when that label is claimed by no other
cluster, the label dict maps it to the very cluster containing the
tagged record, and a cluster with no truthy-tagged record never
appears as a value of the label dict. -/
theorem fill_group_dict_resolves_first_tag :
    (∀ (map : GroupMap) (groups : List (List Meeting))
        (g : List Meeting) (lab : String),
      g ∈ groups → firstTag map g = some lab →
      (∀ g' ∈ groups, firstTag map g' = some lab → g' = g) →
      fillGroupDict map groups (fun _ => none) lab = some g) ∧
    (∀ (map : GroupMap) (groups : List (List Meeting)) (lab : String)
        (g : List Meeting),
      fillGroupDict map groups (fun _ => none) lab = some g →
      g ∈ groups ∧ ∃ pre m suf, g = pre ++ m :: suf ∧
        map.lookup m.path = some lab ∧ lab ≠ "" ∧
        ∀ m' ∈ pre, truthyLabel map m' = none) := by
  constructor
  · intro map groups g lab hmem hfirst huniq
    exact fillGroupDict_mem map lab g groups _ hmem hfirst huniq
  · intro map groups lab g h
    rcases fillGroupDict_sound map lab g groups _ h with hd | ⟨hmem, hfirst⟩
    · cases hd
    · exact ⟨hmem, firstTag_decomp map g lab hfirst⟩

/-- Witness for C6 on a two-cluster list where only the second cluster
carries a tagged record. -/
theorem fill_group_dict_resolves_first_tag_wit :
    fillGroupDict c6map [[c6untagged], [c6tagged]] (fun _ => none)
      "HealthSmithHR" = some [c6tagged] :=
  fill_group_dict_resolves_first_tag.1 c6map [[c6untagged], [c6tagged]]
    [c6tagged] "HealthSmithHR" (by decide) (by decide) (by decide)

/-- Splitting an `Except` fold across an append: the second part runs
only if the first produced no error. -/
theorem foldlM_except_append {ε α β : Type}
    (f : β → α → Except ε β) (l1 l2 : List α) : ∀ b : β,
    (l1 ++ l2).foldlM f b = (l1.foldlM f b).bind
      (fun b' => l2.foldlM f b') := by
  induction l1 with
  | nil => intro b; rfl
  | cons a t ih =>
      intro b
      show (f b a).bind (fun b' => (t ++ l2).foldlM f b') =
        ((f b a).bind (fun b' => t.foldlM f b')).bind
          (fun b' => l2.foldlM f b')
      cases hf : f b a with
      | error e => rfl
      | ok b' =>
          show (t ++ l2).foldlM f b' =
            (t.foldlM f b').bind (fun b'' => l2.foldlM f b'')
          exact ih b'

/-- Counterexample to C7 as stated: one file with a malformed duration
makes the whole run return that file's error; the file after it is
itself perfectly parseable, yet the run produces no groups and no
manifest of skipped files. -/
theorem fatal_parse_error_aborts_run_cex :
    runMeetingSet rosterEx [c7good, c7bad, c7good2] =
        .error .badDuration ∧
      isCandidate c7good2 = true ∧
      (∃ m, parseMeeting rosterEx c7good2 = .ok m) ∧
      runMeetingSet rosterEx [c7good, c7good2] =
        .ok [[c7goodMeeting,
              { path := "7mtg.csv", topic := "Art", duration := 45,
                dt := ⟨2020, 9, 3, 11, 0⟩,
                attendees := [⟨"bob"⟩] }]] :=
  ⟨by decide, by decide, ⟨_, rfl⟩, by decide⟩

/-- Claim C7 (amended): a fatal parse error in one export file aborts
the entire run at that file — files before it are processed, the
remaining files are never reached, the run returns the error, and no
manifest of skipped files is produced. -/
theorem fatal_parse_error_aborts_run (resolver : String → Option Student)
    (pre : List RawFile) (f : RawFile) (suf : List RawFile) (e : ParseErr)
    (gs : List (List Meeting))
    (hc : isCandidate f = true)
    (he : parseMeeting resolver f = .error e)
    (hpre : runMeetingSet resolver pre = .ok gs) :
    runMeetingSet resolver (pre ++ f :: suf) = .error e := by
  unfold runMeetingSet at hpre ⊢
  rw [List.filter_append]
  have hkeep : List.filter isCandidate (f :: suf) =
      f :: List.filter isCandidate suf := by
    simp [List.filter_cons, hc]
  rw [hkeep, foldlM_except_append, hpre]
  show (f :: List.filter isCandidate suf).foldlM
    (fun gs f => (parseMeeting resolver f).map (fun m => assignAux m gs))
    gs = .error e
  show ((parseMeeting resolver f).map (fun m => assignAux m gs)).bind _
    = .error e
  rw [he]
  rfl

/-- Witness for the amended C7: the abort equation derived from the
theorem at the concrete three-file run. -/
theorem fatal_parse_error_aborts_run_wit :
    runMeetingSet rosterEx ([c7good] ++ c7bad :: [c7good2]) =
      .error .badDuration :=
  fatal_parse_error_aborts_run rosterEx [c7good] c7bad [c7good2]
    .badDuration [[c7goodMeeting]] (by decide) (by decide) (by decide)

/-- One loop step of `process` adds at most a fresh singleton entry to
the `group_dict`. -/
theorem processStep_dict_sound (map : GroupMap)
    (st : List (List Meeting) × GDict) (m : Meeting) (lab : String)
    (c : List Meeting)
    (h : (processStep map st m).2 lab = some c) :
    st.2 lab = some c ∨ ∃ m', c = [m'] ∧ map.lookup m'.path = some lab := by
  unfold processStep at h
  cases ha : st.1.any (fun g => groupMatches g m) with
  | false =>
      rw [ha] at h
      exact Or.inl h
  | true =>
      rw [ha] at h
      show _ ∨ _
      by_cases hE : map.isEmpty
      · rw [if_pos hE] at h
        exact Or.inl h
      · rw [if_neg hE] at h
        rcases hl : map.lookup m.path with _ | lab0
        · rw [hl] at h
          exact Or.inl h
        · rw [hl] at h
          have h' : (if lab = lab0 then some [m] else st.2 lab) = some c := h
          by_cases heq : lab = lab0
          · rw [if_pos heq] at h'
            refine Or.inr ⟨m, ?_, ?_⟩
            · have : [m] = c := by injection h'
              exact this.symm
            · rw [hl, heq]
          · rw [if_neg heq] at h'
            exact Or.inl h'

/-- Folding the `process` loop adds only fresh singleton entries. -/
theorem processFold_dict_sound (map : GroupMap) (ms : List Meeting) :
    ∀ (st : List (List Meeting) × GDict) (lab : String)
      (c : List Meeting),
      (ms.foldl (processStep map) st).2 lab = some c →
      st.2 lab = some c ∨
        ∃ m', c = [m'] ∧ map.lookup m'.path = some lab := by
  induction ms with
  | nil => intro st lab c h; exact Or.inl h
  | cons m t ih =>
      intro st lab c h
      rcases ih (processStep map st m) lab c h with h1 | h2
      · exact processStep_dict_sound map st m lab c h1
      · exact Or.inr h2

/-- Claim C8: after `process` runs with a `group_map`, every entry of
`group_dict` is a newly created one-element list holding the tagged
meeting (never the grouping inside `self.groups`); the entry exists
only when the tagged meeting matched an existing group, so a tagged
meeting that starts a new group leaves its label absent; and
`fill_group_dict` is never invoked, so no entry is ever widened to a
full grouping. -/
theorem process_group_dict_tag_semantics :
    (∀ (map : GroupMap) (ms : List Meeting) (lab : String)
        (c : List Meeting),
      (processWithMap map ms).2 lab = some c →
      ∃ m, c = [m] ∧ map.lookup m.path = some lab) ∧
    ((processWithMap c8map [c8base, c8tag]).1 = [[c8base, c8tag]] ∧
      (processWithMap c8map [c8base, c8tag]).2 "L1" = some [c8tag] ∧
      some [c8tag] ≠ some [c8base, c8tag]) ∧
    ((processWithMap c8mapSolo [c8solo]).1 = [[c8solo]] ∧
      (processWithMap c8mapSolo [c8solo]).2 "L2" = none) := by
  refine ⟨?_, ⟨by decide, by decide, by decide⟩, by decide, by decide⟩
  intro map ms lab c h
  unfold processWithMap at h
  rcases processFold_dict_sound map ms ([], fun _ => none) lab c h with
    h1 | h2
  · cases h1
  · exact h2

/-- Witness for C8 applying the general part at the concrete tagged
run. -/
theorem process_group_dict_tag_semantics_wit :
    ∃ m, ([c8tag] : List Meeting) = [m] ∧
      c8map.lookup m.path = some "L1" :=
  process_group_dict_tag_semantics.1 c8map [c8base, c8tag] "L1" [c8tag]
    (by decide)

/-- Counterexample to C9 as stated: strictly increasing but negative
thresholds pass validation — non-negativity is never checked, so an
all-negative configuration is not fatal. -/
theorem negative_thresholds_accepted_cex :
    validateOrGenerateThresholds (some ⟨-3, -2, -1⟩) = .ok ⟨-3, -2, -1⟩ ∧
      ((-3 : Int) < 0) := by
  refine ⟨?_, by decide⟩
  rfl

/-- Claim C9 (amended): supplied thresholds must satisfy
`red < yellow < green` over the integers (non-negativity is not
enforced); a violation is fatal when the writer is constructed, and
with no thresholds supplied the defaults `red=0, yellow=15, green=30`
are installed. -/
theorem thresholds_validation_rules :
    (∀ t : Thresholds, t.red < t.yellow ∧ t.yellow < t.green →
      validateOrGenerateThresholds (some t) = .ok t) ∧
    (∀ t : Thresholds, ¬ (t.red < t.yellow ∧ t.yellow < t.green) →
      validateOrGenerateThresholds (some t) = .error .invalidThresholds) ∧
    validateOrGenerateThresholds none = .ok ⟨0, 15, 30⟩ := by
  refine ⟨?_, ?_, rfl⟩
  · intro t h
    unfold validateOrGenerateThresholds
    show (if t.red < t.yellow ∧ t.yellow < t.green then Except.ok t
      else Except.error ConfigErr.invalidThresholds) = Except.ok t
    rw [if_pos h]
  · intro t h
    unfold validateOrGenerateThresholds
    show (if t.red < t.yellow ∧ t.yellow < t.green then Except.ok t
      else Except.error ConfigErr.invalidThresholds) =
        Except.error ConfigErr.invalidThresholds
    rw [if_neg h]

/-- Witness for the amended C9 at the default threshold triple. -/
theorem thresholds_validation_rules_wit :
    validateOrGenerateThresholds (some ⟨0, 15, 30⟩) = .ok ⟨0, 15, 30⟩ :=
  thresholds_validation_rules.1 ⟨0, 15, 30⟩ (by decide)

/-- With an hour field of 12 and a `pm` marker, the parsed hour
becomes 24, which the `datetime` constructor rejects. -/
theorem parseTimeStr_pm12 (s : String) (mo d y mi : Nat)
    (rest : List Nat)
    (hdig : digitVals s = mo :: d :: y :: 12 :: mi :: rest)
    (hpm : hasPmMarker s = true) :
    parseTimeStr s = .error .badDatetime := by
  unfold parseTimeStr
  rw [hdig]
  show mkDatetime y mo d (if hasPmMarker s then 12 + 12 else 12) mi =
    .error .badDatetime
  have h24 : (if hasPmMarker s then 12 + 12 else 12) = 24 := by
    simp [hpm]
  rw [h24]
  unfold mkDatetime
  rw [if_neg]
  intro hcond
  have : (24 : Nat) ≤ 23 := hcond.2.2.2.2.2.2.1
  omega

/-- Claim C10: a start-time string carrying a 12-hour value of 12
together with a `pm` marker makes the parser add 12 to the hour,
yielding hour 24; the `datetime` constructor rejects it, so
constructing a `Meeting` from such a file raises instead of producing
a record. -/
theorem pm_noon_never_parses :
    (∀ (s : String) (mo d y mi : Nat) (rest : List Nat),
      digitVals s = mo :: d :: y :: 12 :: mi :: rest →
      hasPmMarker s = true →
      parseTimeStr s = .error .badDatetime) ∧
    (∀ (resolver : String → Option Student) (f : RawFile)
        (row1 : List String) (s : String) (mo d y mi : Nat)
        (rest : List Nat) (m : Meeting),
      f.rows.get? 1 = some row1 → row1.get? 2 = some s →
      digitVals s = mo :: d :: y :: 12 :: mi :: rest →
      hasPmMarker s = true →
      parseMeeting resolver f ≠ .ok m) := by
  constructor
  · exact fun s mo d y mi rest hdig hpm =>
      parseTimeStr_pm12 s mo d y mi rest hdig hpm
  · intro resolver f row1 s mo d y mi rest m hrow hcol hdig hpm hok
    unfold parseMeeting at hok
    split at hok
    · exact Except.noConfusion hok
    · split at hok
      · split at hok
        · exact Except.noConfusion hok
        · split at hok
          · split at hok
            · exact Except.noConfusion hok
            · rename_i row1' hrow1'
              split at hok
              · exact Except.noConfusion hok
              · split at hok
                · exact Except.noConfusion hok
                · split at hok
                  · exact Except.noConfusion hok
                  · split at hok
                    · exact Except.noConfusion hok
                    · rename_i timeStr htime
                      split at hok
                      · exact Except.noConfusion hok
                      · rename_i dt hdt
                        have hr : some row1' = some row1 :=
                          hrow1'.symm.trans hrow
                        obtain rfl : row1' = row1 := by injection hr
                        have hs : some timeStr = some s :=
                          htime.symm.trans hcol
                        have hts : timeStr = s := by injection hs
                        rw [hts,
                          parseTimeStr_pm12 s mo d y mi rest hdig hpm]
                          at hdt
                        exact Except.noConfusion hdt
          · exact Except.noConfusion hok
      · exact Except.noConfusion hok

/-- Witness for C10 at a concrete file whose meeting starts at
12:30 PM. -/
theorem pm_noon_never_parses_wit :
    parseMeeting rosterEx c10file ≠ .ok c10dummy :=
  pm_noon_never_parses.2 rosterEx c10file
    ["x", "Math", "9/1/2020 12:30:00 PM", "x", "x", "60"]
    "9/1/2020 12:30:00 PM" 9 1 2020 30 [0] c10dummy rfl rfl
    (by decide) (by decide)

end ZoomAttendance
